import Mathlib

/-!
Verification of the distributed coordination primitives of this repository:
the Snowflake id generator (`SnowflakeGenerator` in the TypeORM decorator
module) and the Redis-backed distributed lock
(`libs/common/src/decorators/with-lock.decorator.ts`).

The generator works on JavaScript `bigint` values (arbitrary-precision
integers), embedded here as `Int` with the bitwise operations `Int.lor`,
`Int.land`, `Int.xor` and `<<<`, which have exactly the two's-complement
semantics of `bigint` `|`, `&`, `^` and `<<`.  `Date.now()` is embedded as
an explicit stream `clock : Nat → Int` of millisecond readings, consumed
one reading per call site in program order; the busy-wait loop
`waitNextMillis` is bounded by an explicit `fuel` (the source loop spins
until the clock advances, so a run that exhausts its fuel corresponds to a
non-terminating busy-wait and is reported as `diverge`).

All calls to `next()` / `nextBatch()` are serialized through a promise
chain in the source, so a run of the generator is a sequence of
`generateIdUnsafe` steps threading the mutable state; `runOps` below is
that sequential semantics.
-/

namespace Snowflake

/-- Constant `epoch = 1609459200000n` — 2021-01-01 00:00:00 UTC. -/
def epoch : Int := 1609459200000

/-- Constant `workerIdBits = 5n`. -/
def workerIdBits : Int := 5

/-- Constant `datacenterIdBits = 5n`. -/
def datacenterIdBits : Int := 5

/-- Constant `sequenceBits = 12n`. -/
def sequenceBits : Int := 12

/-- Constant `maxWorkerId = -1n ^ (-1n << workerIdBits)` (= 31). -/
def maxWorkerId : Int := Int.xor (-1) ((-1) <<< workerIdBits)

/-- Constant `maxDatacenterId = -1n ^ (-1n << datacenterIdBits)` (= 31). -/
def maxDatacenterId : Int := Int.xor (-1) ((-1) <<< datacenterIdBits)

/-- Constant `maxSequence = -1n ^ (-1n << sequenceBits)` (= 4095). -/
def maxSequence : Int := Int.xor (-1) ((-1) <<< sequenceBits)

/-- Constant `workerIdShift = sequenceBits` (= 12). -/
def workerIdShift : Int := sequenceBits

/-- Constant `datacenterIdShift = sequenceBits + workerIdBits` (= 17). -/
def datacenterIdShift : Int := sequenceBits + workerIdBits

/-- Constant `timestampShift = sequenceBits + workerIdBits + datacenterIdBits` (= 22). -/
def timestampShift : Int := sequenceBits + workerIdBits + datacenterIdBits

theorem maxWorkerId_eq : maxWorkerId = 31 := by decide

theorem maxDatacenterId_eq : maxDatacenterId = 31 := by decide

theorem maxSequence_eq : maxSequence = 4095 := by decide

/-- The mutable fields of a `SnowflakeGenerator` instance, together with its
immutable configuration.  `lastTimestamp` starts at `-1n`, `sequence` at `0n`. -/
structure GenState where
  datacenterId : Int
  workerId : Int
  lastTimestamp : Int
  sequence : Int
deriving Repr, DecidableEq

/-- The two configuration failures the constructor can throw. -/
inductive ConfigError where
  | workerIdOutOfRange
  | datacenterIdOutOfRange
deriving Repr, DecidableEq

/-- The constructor: reads `SNOWFLAKE_WORKER_ID` / `SNOWFLAKE_DATACENTER_ID`
(here passed as the two integer arguments), throws when `workerId` is outside
`[0, maxWorkerId]` (checked first) or `datacenterId` is outside
`[0, maxDatacenterId]`, and otherwise starts with `lastTimestamp = -1n`,
`sequence = 0n`. -/
def mkGenerator (workerIdEnv datacenterIdEnv : Int) : Except ConfigError GenState :=
  if workerIdEnv > maxWorkerId ∨ workerIdEnv < 0 then
    .error .workerIdOutOfRange
  else if datacenterIdEnv > maxDatacenterId ∨ datacenterIdEnv < 0 then
    .error .datacenterIdOutOfRange
  else
    .ok { datacenterId := datacenterIdEnv, workerId := workerIdEnv,
          lastTimestamp := -1, sequence := 0 }

/-- Method `waitNextMillis(lastTimestamp)`: re-read the clock until it exceeds
`lastTimestamp`.  `tick` indexes the clock readings consumed so far; `fuel`
bounds the number of readings, `none` meaning the spin did not terminate
within the bound.  On success it returns the reading together with the next
unconsumed tick. -/
def waitNextMillis (clock : Nat → Int) (lastTimestamp : Int) :
    Nat → Nat → Option (Int × Nat)
  | _, 0 => none
  | tick, fuel + 1 =>
    let timestamp := clock tick
    if timestamp ≤ lastTimestamp then
      waitNextMillis clock lastTimestamp (tick + 1) fuel
    else
      some (timestamp, tick + 1)

/-- Expression `((timestamp - epoch) << timestampShift) | (datacenterId << datacenterIdShift)
| (workerId << workerIdShift) | sequence` — the id composition of
`generateIdUnsafe`, on `bigint`s (no 64-bit truncation in the source). -/
def composeId (timestamp datacenterId workerId sequence : Int) : Int :=
  Int.lor
    (Int.lor
      (Int.lor ((timestamp - epoch) <<< timestampShift)
        (datacenterId <<< datacenterIdShift))
      (workerId <<< workerIdShift))
    sequence

/-- Outcome of one `generateIdUnsafe()` call.  `regress` is the thrown clock
regression error, carrying the offset `lastTimestamp - timestamp` and the
(unchanged) state; `diverge` is a busy-wait that did not finish within the
fuel; `ok` carries the composed id value (the source returns its decimal
string `id.toString()`), the updated state and the next clock tick. -/
inductive GenResult where
  | regress (offset : Int) (s : GenState) (tick : Nat)
  | diverge
  | ok (id : Int) (s : GenState) (tick : Nat)
deriving Repr, DecidableEq

/-- Method `generateIdUnsafe()`: one step of the five-step algorithm.  Reads the
clock once; throws on regression; on `timestamp === lastTimestamp` advances
`sequence = (sequence + 1n) & maxSequence` and busy-waits when it wraps to
`0n`; otherwise resets `sequence = 0n`; finally stores `lastTimestamp` and
composes the id. -/
def generateIdUnsafe (clock : Nat → Int) (fuel : Nat) (s : GenState) (tick : Nat) :
    GenResult :=
  let timestamp := clock tick
  if timestamp < s.lastTimestamp then
    GenResult.regress (s.lastTimestamp - timestamp) s (tick + 1)
  else if timestamp = s.lastTimestamp then
    let sequence := Int.land (s.sequence + 1) maxSequence
    if sequence = 0 then
      match waitNextMillis clock s.lastTimestamp (tick + 1) fuel with
      | none => GenResult.diverge
      | some (timestamp', tick') =>
        GenResult.ok (composeId timestamp' s.datacenterId s.workerId sequence)
          { s with sequence := sequence, lastTimestamp := timestamp' } tick'
    else
      GenResult.ok (composeId timestamp s.datacenterId s.workerId sequence)
        { s with sequence := sequence, lastTimestamp := timestamp } (tick + 1)
  else
    GenResult.ok (composeId timestamp s.datacenterId s.workerId 0)
      { s with sequence := 0, lastTimestamp := timestamp } (tick + 1)

/-- Outcome of one `next()` call: the source stringifies the composed id
(`id.toString()`), so the payload is the decimal string. -/
inductive NextResult where
  | regress (offset : Int) (s : GenState) (tick : Nat)
  | diverge
  | ok (id : String) (s : GenState) (tick : Nat)
deriving Repr, DecidableEq

/-- Method `next()`: the promise chain serializes the calls, so one call is exactly
one `generateIdUnsafe()` step; its numeric result is returned as a decimal
string. -/
def next (clock : Nat → Int) (fuel : Nat) (s : GenState) (tick : Nat) : NextResult :=
  match generateIdUnsafe clock fuel s tick with
  | .regress offset s' tick' => .regress offset s' tick'
  | .diverge => .diverge
  | .ok id s' tick' => .ok (toString id) s' tick'

/-- Outcome of a batch of `generateIdUnsafe()` steps (numeric ids). -/
inductive BatchResult where
  | regress (offset : Int) (s : GenState) (tick : Nat)
  | diverge
  | ok (ids : List Int) (s : GenState) (tick : Nat)
deriving Repr, DecidableEq

/-- The `for` loop of `nextBatch`: `n` consecutive `generateIdUnsafe()` steps
pushing each id; a thrown regression aborts the whole batch. -/
def generateN (clock : Nat → Int) (fuel : Nat) :
    Nat → GenState → Nat → BatchResult
  | 0, s, tick => .ok [] s tick
  | n + 1, s, tick =>
    match generateIdUnsafe clock fuel s tick with
    | .regress offset s' tick' => .regress offset s' tick'
    | .diverge => .diverge
    | .ok id s' tick' =>
      match generateN clock fuel n s' tick' with
      | .regress offset s'' tick'' => .regress offset s'' tick''
      | .diverge => .diverge
      | .ok ids s'' tick'' => .ok (id :: ids) s'' tick''

/-- Outcome of one `nextBatch()` call (decimal-string ids). -/
inductive StrBatchResult where
  | regress (offset : Int) (s : GenState) (tick : Nat)
  | diverge
  | ok (ids : List String) (s : GenState) (tick : Nat)
deriving Repr, DecidableEq

/-- Formatting step shared by `next()` and `nextBatch()`: each pushed id is
the decimal string of the composed value. -/
def stringify (r : BatchResult) : StrBatchResult :=
  match r with
  | .regress offset s tick => .regress offset s tick
  | .diverge => .diverge
  | .ok ids s tick => .ok (ids.map toString) s tick

/-- Method `nextBatch(count)` before its final formatting step: `count <= 0`
returns `[]` without touching the state; otherwise the whole batch runs as
one entry of the promise chain, i.e. `count` uninterrupted
`generateIdUnsafe()` steps. -/
def nextBatchNum (clock : Nat → Int) (fuel : Nat) (count : Int) (s : GenState)
    (tick : Nat) : BatchResult :=
  if count ≤ 0 then .ok [] s tick
  else generateN clock fuel count.toNat s tick

/-- Method `nextBatch(count)`: the batch of `nextBatchNum`, each id in its decimal
string form. -/
def nextBatch (clock : Nat → Int) (fuel : Nat) (count : Int) (s : GenState)
    (tick : Nat) : StrBatchResult :=
  stringify (nextBatchNum clock fuel count s tick)

/-- A run of `n` sequential `next()` calls, each its own promise-chain entry,
threading the state from call to call. -/
def nextCalls (clock : Nat → Int) (fuel : Nat) :
    Nat → GenState → Nat → StrBatchResult
  | 0, s, tick => .ok [] s tick
  | n + 1, s, tick =>
    match next clock fuel s tick with
    | .regress offset s' tick' => .regress offset s' tick'
    | .diverge => .diverge
    | .ok id s' tick' =>
      match nextCalls clock fuel n s' tick' with
      | .regress offset s'' tick'' => .regress offset s'' tick''
      | .diverge => .diverge
      | .ok ids s'' tick'' => .ok (id :: ids) s'' tick''

/-- One serialized generator call, as application code issues them. -/
inductive Op where
  | next
  | batch (count : Int)
deriving Repr, DecidableEq

/-- A serialized run of the generator: the promise chain executes the calls
one after the other, threading the state.  The result is `some` exactly when
every call succeeded, collecting all emitted numeric ids in generation
order. -/
def runOps (clock : Nat → Int) (fuel : Nat) :
    List Op → GenState → Nat → Option (List Int × GenState × Nat)
  | [], s, tick => some ([], s, tick)
  | op :: ops, s, tick =>
    let step : Option (List Int × GenState × Nat) :=
      match op with
      | .next =>
        match generateIdUnsafe clock fuel s tick with
        | .ok id s' tick' => some ([id], s', tick')
        | _ => none
      | .batch count =>
        match nextBatchNum clock fuel count s tick with
        | .ok ids s' tick' => some (ids, s', tick')
        | _ => none
    match step with
    | none => none
    | some (ids, s', tick') =>
      match runOps clock fuel ops s' tick' with
      | none => none
      | some (ids', s'', tick'') => some (ids ++ ids', s'', tick'')

/-- The timestamp field of a composed id: bits 22 and up, i.e. the
`timestamp - epoch` quantity of the layout. -/
def timestampField (id : Int) : Int := id >>> timestampShift

/-- Configuration and sequence ranges that `mkGenerator` establishes and
every step preserves. -/
def ValidState (s : GenState) : Prop :=
  0 ≤ s.datacenterId ∧ s.datacenterId ≤ maxDatacenterId ∧
  0 ≤ s.workerId ∧ s.workerId ≤ maxWorkerId ∧
  0 ≤ s.sequence ∧ s.sequence ≤ maxSequence

instance (s : GenState) : Decidable (ValidState s) := by
  unfold ValidState; infer_instance

/-- The (lastTimestamp, sequence) pair a state remembers; after each
successful step it is exactly the field pair of the id just emitted. -/
def stateKey (s : GenState) : Int × Int := (s.lastTimestamp, s.sequence)

/-- Lexicographic strict order on (timestamp, sequence) pairs. -/
def lexLt (a b : Int × Int) : Prop := a.1 < b.1 ∨ (a.1 = b.1 ∧ a.2 < b.2)

instance (a b : Int × Int) : Decidable (lexLt a b) := by
  unfold lexLt; infer_instance

/-- A field pair that an emitted id can carry: timestamp at or after the
epoch, sequence within its 12 bits. -/
def KeyOk (k : Int × Int) : Prop := epoch ≤ k.1 ∧ 0 ≤ k.2 ∧ k.2 ≤ 4095

instance (k : Int × Int) : Decidable (KeyOk k) := by
  unfold KeyOk; infer_instance

end Snowflake

namespace Snowflake

theorem lor_coe (m n : ℕ) : Int.lor (↑m) (↑n) = ↑(m ||| n) := rfl

theorem land_coe (m n : ℕ) : Int.land (↑m) (↑n) = ↑(m &&& n) := rfl

/-- For a non-negative `bigint`, `x & maxSequence` is reduction mod `2^12`. -/
theorem land_maxSequence (x : Int) (hx : 0 ≤ x) :
    Int.land x maxSequence = x % 4096 := by
  obtain ⟨n, rfl⟩ : ∃ n : ℕ, x = (n : ℤ) := ⟨x.toNat, (Int.toNat_of_nonneg hx).symm⟩
  rw [maxSequence_eq]
  have h1 : ((4095 : ℤ)) = ((4095 : ℕ) : ℤ) := rfl
  rw [h1, land_coe]
  have h2 : n &&& 4095 = n % 4096 := by
    have := Nat.and_pow_two_sub_one_eq_mod n 12
    norm_num at this
    exact this
  rw [h2]
  push_cast
  rfl

/-- The canonical bit layout, at the level of natural numbers: with the
datacenter id, worker id and sequence inside their bit widths, the nested
bitwise ors place the four fields side by side, so the composition is plain
positional arithmetic. -/
theorem nat_layout (t d w q : ℕ) (hd : d < 32) (hw : w < 32) (hq : q < 4096) :
    ((t <<< 22 ||| d <<< 17) ||| w <<< 12) ||| q =
      t * 2 ^ 22 + d * 2 ^ 17 + w * 2 ^ 12 + q := by
  rw [Nat.shiftLeft_eq, Nat.shiftLeft_eq, Nat.shiftLeft_eq]
  have e1 : t * 2 ^ 22 ||| d * 2 ^ 17 = t * 2 ^ 22 + d * 2 ^ 17 := by
    rw [Nat.mul_comm t]
    exact (Nat.mul_add_lt_is_or (by omega) t).symm
  have r2 : t * 2 ^ 22 + d * 2 ^ 17 = 2 ^ 17 * (t * 2 ^ 5 + d) := by ring
  have e2 : (t * 2 ^ 22 + d * 2 ^ 17) ||| w * 2 ^ 12 =
      t * 2 ^ 22 + d * 2 ^ 17 + w * 2 ^ 12 := by
    rw [r2, (Nat.mul_add_lt_is_or (by omega) (t * 2 ^ 5 + d)).symm]
  have r3 : t * 2 ^ 22 + d * 2 ^ 17 + w * 2 ^ 12 =
      2 ^ 12 * (t * 2 ^ 10 + d * 2 ^ 5 + w) := by ring
  have e3 : (t * 2 ^ 22 + d * 2 ^ 17 + w * 2 ^ 12) ||| q =
      t * 2 ^ 22 + d * 2 ^ 17 + w * 2 ^ 12 + q := by
    rw [r3, (Nat.mul_add_lt_is_or (by omega) (t * 2 ^ 10 + d * 2 ^ 5 + w)).symm]
  rw [e1, e2, e3]

/-- With the timestamp at or after the epoch and the other fields inside
their bit widths, `composeId` is exactly the positional sum of the layout. -/
theorem composeId_eq_sum {timestamp datacenterId workerId sequence : Int}
    (hts : epoch ≤ timestamp)
    (hdc0 : 0 ≤ datacenterId) (hdc1 : datacenterId ≤ 31)
    (hw0 : 0 ≤ workerId) (hw1 : workerId ≤ 31)
    (hq0 : 0 ≤ sequence) (hq1 : sequence ≤ 4095) :
    composeId timestamp datacenterId workerId sequence =
      (timestamp - epoch) * 2 ^ 22 + datacenterId * 2 ^ 17 +
        workerId * 2 ^ 12 + sequence := by
  obtain ⟨t, ht⟩ : ∃ t : ℕ, timestamp - epoch = (t : ℤ) :=
    ⟨(timestamp - epoch).toNat, (Int.toNat_of_nonneg (by omega)).symm⟩
  obtain ⟨d, hd⟩ : ∃ d : ℕ, datacenterId = (d : ℤ) :=
    ⟨datacenterId.toNat, (Int.toNat_of_nonneg hdc0).symm⟩
  obtain ⟨w, hw⟩ : ∃ w : ℕ, workerId = (w : ℤ) :=
    ⟨workerId.toNat, (Int.toNat_of_nonneg hw0).symm⟩
  obtain ⟨q, hq⟩ : ∃ q : ℕ, sequence = (q : ℤ) :=
    ⟨sequence.toNat, (Int.toNat_of_nonneg hq0).symm⟩
  have hd32 : d < 32 := by omega
  have hw32 : w < 32 := by omega
  have hq4096 : q < 4096 := by omega
  unfold composeId timestampShift datacenterIdShift workerIdShift
  unfold sequenceBits workerIdBits datacenterIdBits
  rw [ht, hd, hw, hq]
  norm_num
  have c22 : ((t : ℤ) <<< (22 : ℤ)) = ((t <<< 22 : ℕ) : ℤ) :=
    Int.shiftLeft_coe_nat t 22
  have c17 : ((d : ℤ) <<< (17 : ℤ)) = ((d <<< 17 : ℕ) : ℤ) :=
    Int.shiftLeft_coe_nat d 17
  have c12 : ((w : ℤ) <<< (12 : ℤ)) = ((w <<< 12 : ℕ) : ℤ) :=
    Int.shiftLeft_coe_nat w 12
  rw [c22, c17, c12, lor_coe, lor_coe, lor_coe,
    nat_layout t d w q hd32 hw32 hq4096]
  push_cast
  ring

end Snowflake

namespace Snowflake

/-- Branch equation: clock regression throws, with the offset and the state
untouched, after exactly one clock read. -/
theorem generateIdUnsafe_regress {clock : Nat → Int} {fuel : Nat} {s : GenState}
    {tick : Nat} (h : clock tick < s.lastTimestamp) :
    generateIdUnsafe clock fuel s tick =
      .regress (s.lastTimestamp - clock tick) s (tick + 1) := by
  unfold generateIdUnsafe
  simp [h]

/-- Branch equation: a strictly advanced clock resets the sequence to `0`
and emits with the new millisecond. -/
theorem generateIdUnsafe_advance {clock : Nat → Int} {fuel : Nat} {s : GenState}
    {tick : Nat} (h : s.lastTimestamp < clock tick) :
    generateIdUnsafe clock fuel s tick =
      .ok (composeId (clock tick) s.datacenterId s.workerId 0)
        { s with sequence := 0, lastTimestamp := clock tick } (tick + 1) := by
  unfold generateIdUnsafe
  rw [if_neg (by omega), if_neg (by omega)]

/-- Branch equation: same millisecond, masked increment not wrapping. -/
theorem generateIdUnsafe_same {clock : Nat → Int} {fuel : Nat} {s : GenState}
    {tick : Nat} (h : clock tick = s.lastTimestamp)
    (hseq : Int.land (s.sequence + 1) maxSequence ≠ 0) :
    generateIdUnsafe clock fuel s tick =
      .ok (composeId s.lastTimestamp s.datacenterId s.workerId
            (Int.land (s.sequence + 1) maxSequence))
        { s with sequence := Int.land (s.sequence + 1) maxSequence,
                 lastTimestamp := s.lastTimestamp } (tick + 1) := by
  unfold generateIdUnsafe
  rw [if_neg (by omega)]
  simp only [h, if_pos rfl]
  rw [if_neg hseq]
  simp

/-- Branch equation: same millisecond with the sequence wrapping to `0` —
the call busy-waits for the next millisecond and emits with it. -/
theorem generateIdUnsafe_wrap {clock : Nat → Int} {fuel : Nat} {s : GenState}
    {tick : Nat} (h : clock tick = s.lastTimestamp)
    (hseq : Int.land (s.sequence + 1) maxSequence = 0) :
    generateIdUnsafe clock fuel s tick =
      match waitNextMillis clock s.lastTimestamp (tick + 1) fuel with
      | none => GenResult.diverge
      | some (timestamp', tick') =>
        GenResult.ok (composeId timestamp' s.datacenterId s.workerId 0)
          { s with sequence := 0, lastTimestamp := timestamp' } tick' := by
  unfold generateIdUnsafe
  rw [if_neg (by omega)]
  simp only [h, if_pos rfl, hseq, if_pos rfl]
  simp

/-- A successful busy-wait returns a clock reading strictly beyond the
stored millisecond, together with the tick right after that reading. -/
theorem waitNextMillis_some {clock : Nat → Int} {last : Int} :
    ∀ {fuel tick t tick'},
      waitNextMillis clock last tick fuel = some (t, tick') →
      last < t ∧ ∃ j, t = clock j ∧ tick ≤ j ∧ tick' = j + 1 := by
  intro fuel
  induction fuel with
  | zero => intro tick t tick' h; simp [waitNextMillis] at h
  | succ n ih =>
    intro tick t tick' h
    unfold waitNextMillis at h
    by_cases hle : clock tick ≤ last
    · rw [if_pos hle] at h
      obtain ⟨h1, j, hj1, hj2, hj3⟩ := ih h
      exact ⟨h1, j, hj1, by omega, hj3⟩
    · rw [if_neg hle] at h
      simp only [Option.some.injEq, Prod.mk.injEq] at h
      obtain ⟨ht, htick⟩ := h
      subst ht
      subst htick
      exact ⟨by omega, tick, rfl, le_refl _, rfl⟩

end Snowflake

namespace Snowflake

/-- The workhorse: a successful `generateIdUnsafe` step keeps the
configuration, keeps the state valid, stores exactly the field pair of the
id it emits, and moves that pair strictly upwards in lexicographic
(timestamp, sequence) order. -/
theorem generateIdUnsafe_ok_spec {clock : Nat → Int} {fuel : Nat} {s : GenState}
    {tick : Nat} {id : Int} {s' : GenState} {tick' : Nat}
    (hc : ∀ i, epoch ≤ clock i) (hv : ValidState s)
    (h : generateIdUnsafe clock fuel s tick = .ok id s' tick') :
    ValidState s' ∧ s'.datacenterId = s.datacenterId ∧ s'.workerId = s.workerId ∧
      KeyOk (stateKey s') ∧ lexLt (stateKey s) (stateKey s') ∧
      id = composeId s'.lastTimestamp s'.datacenterId s'.workerId s'.sequence ∧
      tick < tick' := by
  obtain ⟨hdc0, hdc1, hw0, hw1, hs0, hs1⟩ := hv
  rw [maxSequence_eq] at hs1
  rcases lt_trichotomy (clock tick) s.lastTimestamp with h1 | h1 | h1
  · rw [generateIdUnsafe_regress h1] at h
    exact absurd h (by simp)
  · by_cases hseq : Int.land (s.sequence + 1) maxSequence = 0
    · rw [generateIdUnsafe_wrap h1 hseq] at h
      rcases hw : waitNextMillis clock s.lastTimestamp (tick + 1) fuel with _ | ⟨t', tk'⟩
      · rw [hw] at h; exact absurd h (by simp)
      · rw [hw] at h
        simp only [GenResult.ok.injEq] at h
        obtain ⟨hid, hs', htk⟩ := h
        obtain ⟨hlt, j, hj1, hj2, hj3⟩ := waitNextMillis_some hw
        have hje : epoch ≤ t' := hj1 ▸ hc j
        subst hs' htk hid
        refine ⟨?_, rfl, rfl, ?_, ?_, rfl, by omega⟩
        · unfold ValidState
          dsimp only
          rw [maxSequence_eq]
          exact ⟨hdc0, hdc1, hw0, hw1, le_refl 0, by omega⟩
        · unfold KeyOk stateKey
          dsimp only
          exact ⟨hje, le_refl 0, by omega⟩
        · unfold lexLt stateKey
          dsimp only
          exact Or.inl hlt
    · rw [generateIdUnsafe_same h1 hseq] at h
      simp only [GenResult.ok.injEq] at h
      obtain ⟨hid, hs', htk⟩ := h
      have hmask : Int.land (s.sequence + 1) maxSequence = (s.sequence + 1) % 4096 :=
        land_maxSequence _ (by omega)
      have hepoch : epoch ≤ s.lastTimestamp := h1 ▸ hc tick
      rw [hmask] at hseq
      subst hs' htk hid
      refine ⟨?_, rfl, rfl, ?_, ?_, rfl, by omega⟩
      · unfold ValidState
        dsimp only
        rw [hmask, maxSequence_eq]
        exact ⟨hdc0, hdc1, hw0, hw1, by omega, by omega⟩
      · unfold KeyOk stateKey
        dsimp only
        rw [hmask]
        exact ⟨hepoch, by omega, by omega⟩
      · unfold lexLt stateKey
        dsimp only
        rw [hmask]
        exact Or.inr ⟨rfl, by omega⟩
  · rw [generateIdUnsafe_advance h1] at h
    simp only [GenResult.ok.injEq] at h
    obtain ⟨hid, hs', htk⟩ := h
    subst hs' htk hid
    refine ⟨?_, rfl, rfl, ?_, ?_, rfl, by omega⟩
    · unfold ValidState
      dsimp only
      rw [maxSequence_eq]
      exact ⟨hdc0, hdc1, hw0, hw1, le_refl 0, by omega⟩
    · unfold KeyOk stateKey
      dsimp only
      exact ⟨hc tick, le_refl 0, by omega⟩
    · unfold lexLt stateKey
      dsimp only
      exact Or.inl h1

end Snowflake

namespace Snowflake

theorem lexLt_trans : Transitive lexLt := by
  intro a b c hab hbc
  unfold lexLt at *
  omega

instance : IsTrans (Int × Int) lexLt := ⟨fun _ _ _ h1 h2 => lexLt_trans h1 h2⟩

/-- Strict monotonicity of the layout: with the configuration fixed and in
range, a lexicographically larger (timestamp, sequence) pair composes to a
strictly larger id. -/
theorem composeId_lt_composeId {dc w : Int}
    (hdc0 : 0 ≤ dc) (hdc1 : dc ≤ 31) (hw0 : 0 ≤ w) (hw1 : w ≤ 31)
    {a b : Int × Int} (ha : KeyOk a) (hb : KeyOk b) (hab : lexLt a b) :
    composeId a.1 dc w a.2 < composeId b.1 dc w b.2 := by
  obtain ⟨ha1, ha2, ha3⟩ := ha
  obtain ⟨hb1, hb2, hb3⟩ := hb
  rw [composeId_eq_sum ha1 hdc0 hdc1 hw0 hw1 ha2 ha3,
    composeId_eq_sum hb1 hdc0 hdc1 hw0 hw1 hb2 hb3]
  have e22 : (2 : ℤ) ^ 22 = 4194304 := by norm_num
  have e17 : (2 : ℤ) ^ 17 = 131072 := by norm_num
  have e12 : (2 : ℤ) ^ 12 = 4096 := by norm_num
  rw [e22, e17, e12]
  unfold lexLt at hab
  rcases hab with hlt | ⟨heq, hlt⟩
  · nlinarith [hlt, ha3, hb2]
  · rw [heq]
    omega

theorem timestampShift_eq : timestampShift = 22 := by decide

/-- Extracting the timestamp field of a composed in-range id recovers the
milliseconds-since-epoch quantity. -/
theorem timestampField_composeId {dc w : Int}
    (hdc0 : 0 ≤ dc) (hdc1 : dc ≤ 31) (hw0 : 0 ≤ w) (hw1 : w ≤ 31)
    {k : Int × Int} (hk : KeyOk k) :
    timestampField (composeId k.1 dc w k.2) = k.1 - epoch := by
  obtain ⟨hk1, hk2, hk3⟩ := hk
  rw [composeId_eq_sum hk1 hdc0 hdc1 hw0 hw1 hk2 hk3]
  unfold timestampField
  rw [timestampShift_eq]
  obtain ⟨t, ht⟩ : ∃ t : ℕ, k.1 - epoch = (t : ℤ) :=
    ⟨(k.1 - epoch).toNat, (Int.toNat_of_nonneg (by omega)).symm⟩
  obtain ⟨d, hd⟩ : ∃ d : ℕ, dc = (d : ℤ) := ⟨dc.toNat, (Int.toNat_of_nonneg hdc0).symm⟩
  obtain ⟨w', hw'⟩ : ∃ w' : ℕ, w = (w' : ℤ) := ⟨w.toNat, (Int.toNat_of_nonneg hw0).symm⟩
  obtain ⟨q, hq⟩ : ∃ q : ℕ, k.2 = (q : ℤ) :=
    ⟨k.2.toNat, (Int.toNat_of_nonneg hk2).symm⟩
  rw [ht, hd, hw', hq]
  have hsum : (t : ℤ) * 2 ^ 22 + (d : ℤ) * 2 ^ 17 + (w' : ℤ) * 2 ^ 12 + (q : ℤ) =
      ((t * 2 ^ 22 + d * 2 ^ 17 + w' * 2 ^ 12 + q : ℕ) : ℤ) := by push_cast; ring
  rw [hsum]
  have h22 : ((22 : ℤ)) = ((22 : ℕ) : ℤ) := rfl
  rw [h22, Int.shiftRight_coe_nat, Nat.shiftRight_eq_div_pow]
  have hdiv : (t * 2 ^ 22 + d * 2 ^ 17 + w' * 2 ^ 12 + q) / 2 ^ 22 = t := by
    have hd32 : d < 32 := by omega
    have hw32 : w' < 32 := by omega
    have hq4096 : q < 4096 := by omega
    have e22 : (2 : ℕ) ^ 22 = 4194304 := by norm_num
    have e17 : (2 : ℕ) ^ 17 = 131072 := by norm_num
    have e12 : (2 : ℕ) ^ 12 = 4096 := by norm_num
    rw [e22, e17, e12]
    omega
  rw [hdiv]

theorem getLastD_append {α : Type} :
    ∀ (l1 l2 : List α) (d : α), (l1 ++ l2).getLastD d = l2.getLastD (l1.getLastD d)
  | [], _, _ => rfl
  | a :: l1, l2, d => by
    rw [List.cons_append, List.getLastD_cons, List.getLastD_cons]
    exact getLastD_append l1 l2 a

/-- Gluing two chained key segments at the remembered last key. -/
theorem chain_glue {k0 : Int × Int} {l1 l2 : List (Int × Int)}
    (h1 : List.Chain' lexLt (k0 :: l1))
    (h2 : List.Chain' lexLt (l1.getLastD k0 :: l2)) :
    List.Chain' lexLt (k0 :: (l1 ++ l2)) := by
  induction l1 generalizing k0 with
  | nil => exact h2
  | cons a l1 ih =>
    rw [List.cons_append, List.chain'_cons]
    rw [List.chain'_cons] at h1
    rw [List.getLastD_cons] at h2
    exact ⟨h1.1, ih h1.2 h2⟩

end Snowflake

namespace Snowflake

/-- Spec of the batch loop: `n` successful steps emit `n` ids whose
(timestamp, sequence) pairs rise strictly from the starting state's pair,
with the final state remembering the last pair. -/
theorem generateN_spec {clock : Nat → Int} {fuel : Nat}
    (hc : ∀ i, epoch ≤ clock i) :
    ∀ {n : Nat} {s : GenState} {tick : Nat} {ids : List Int} {s' : GenState}
      {tick' : Nat}, ValidState s →
      generateN clock fuel n s tick = .ok ids s' tick' →
      ValidState s' ∧ s'.datacenterId = s.datacenterId ∧
        s'.workerId = s.workerId ∧ ids.length = n ∧
        ∃ keys : List (Int × Int),
          ids = keys.map (fun k => composeId k.1 s.datacenterId s.workerId k.2) ∧
          (∀ k ∈ keys, KeyOk k) ∧
          List.Chain' lexLt (stateKey s :: keys) ∧
          stateKey s' = keys.getLastD (stateKey s) := by
  intro n
  induction n with
  | zero =>
    intro s tick ids s' tick' hv h
    unfold generateN at h
    simp only [BatchResult.ok.injEq] at h
    obtain ⟨hids, hs', _⟩ := h
    subst hids hs'
    exact ⟨hv, rfl, rfl, rfl, [], rfl, by simp, List.chain'_singleton _, rfl⟩
  | succ n ih =>
    intro s tick ids s' tick' hv h
    rcases hg : generateIdUnsafe clock fuel s tick with ⟨o, os, ot⟩ | _ | ⟨id, s1, t1⟩
    · simp only [generateN, hg] at h
      exact BatchResult.noConfusion h
    · simp only [generateN, hg] at h
      exact BatchResult.noConfusion h
    · simp only [generateN, hg] at h
      rcases hr : generateN clock fuel n s1 t1 with ⟨o2, os2, ot2⟩ | _ | ⟨ids1, s2, t2⟩
      · simp only [hr] at h
        exact BatchResult.noConfusion h
      · simp only [hr] at h
        exact BatchResult.noConfusion h
      simp only [hr, BatchResult.ok.injEq] at h
      obtain ⟨hids, hs', _⟩ := h
      subst hids hs'
      obtain ⟨hv1, hdc1, hw1, hkey1, hlex1, hid1, _⟩ :=
        generateIdUnsafe_ok_spec hc hv hg
      obtain ⟨hv2, hdc2, hw2, hlen2, keys1, hmap, hkeys, hchain, hlast⟩ := ih hv1 hr
      refine ⟨hv2, hdc2.trans hdc1, hw2.trans hw1, by simp [hlen2],
        stateKey s1 :: keys1, ?_, ?_, ?_, ?_⟩
      · rw [List.map_cons]
        congr 1
        · rw [hid1, hdc1, hw1]
          rfl
        · rw [hmap, hdc1, hw1]
      · intro k hk
        rcases List.mem_cons.mp hk with hk | hk
        · exact hk ▸ hkey1
        · exact hkeys k hk
      · rw [List.chain'_cons]
        exact ⟨hlex1, hchain⟩
      · rw [List.getLastD_cons]
        exact hlast

/-- Spec of a serialized run: any successful sequence of `next()` /
`nextBatch()` calls emits ids whose key pairs rise strictly in generation
order. -/
theorem runOps_spec {clock : Nat → Int} {fuel : Nat}
    (hc : ∀ i, epoch ≤ clock i) :
    ∀ {ops : List Op} {s : GenState} {tick : Nat} {ids : List Int}
      {s' : GenState} {tick' : Nat}, ValidState s →
      runOps clock fuel ops s tick = some (ids, s', tick') →
      ValidState s' ∧ s'.datacenterId = s.datacenterId ∧
        s'.workerId = s.workerId ∧
        ∃ keys : List (Int × Int),
          ids = keys.map (fun k => composeId k.1 s.datacenterId s.workerId k.2) ∧
          (∀ k ∈ keys, KeyOk k) ∧
          List.Chain' lexLt (stateKey s :: keys) ∧
          stateKey s' = keys.getLastD (stateKey s) := by
  intro ops
  induction ops with
  | nil =>
    intro s tick ids s' tick' hv h
    simp only [runOps, Option.some.injEq, Prod.mk.injEq] at h
    obtain ⟨hids, hs', _⟩ := h
    subst hs'
    rw [← hids]
    exact ⟨hv, rfl, rfl, [], rfl, by simp, List.chain'_singleton _, rfl⟩
  | cons op ops ih =>
    intro s tick ids s' tick' hv h
    have hstep : ∃ ids1 ids2 s1 t1, ids = ids1 ++ ids2 ∧
        (∃ keys1 : List (Int × Int),
          ids1 = keys1.map (fun k => composeId k.1 s.datacenterId s.workerId k.2) ∧
          (∀ k ∈ keys1, KeyOk k) ∧ List.Chain' lexLt (stateKey s :: keys1) ∧
          stateKey s1 = keys1.getLastD (stateKey s)) ∧
        ValidState s1 ∧ s1.datacenterId = s.datacenterId ∧
        s1.workerId = s.workerId ∧
        runOps clock fuel ops s1 t1 = some (ids2, s', tick') := by
      rcases op with _ | count
      · rcases hg : generateIdUnsafe clock fuel s tick with ⟨o, os, ot⟩ | _ | ⟨id, s1, t1⟩
        · simp only [runOps, hg] at h
          exact Option.noConfusion h
        · simp only [runOps, hg] at h
          exact Option.noConfusion h
        · simp only [runOps, hg] at h
          rcases hrest : runOps clock fuel ops s1 t1 with _ | ⟨⟨ids2, s2, t2⟩⟩
          · simp only [hrest] at h
            exact Option.noConfusion h
          simp only [hrest, Option.some.injEq, Prod.mk.injEq] at h
          obtain ⟨hids, hs', htk2⟩ := h
          subst hs' htk2
          obtain ⟨hv1, hdc1, hw1, hkey1, hlex1, hid1, _⟩ :=
            generateIdUnsafe_ok_spec hc hv hg
          refine ⟨[id], ids2, s1, t1, by rw [← hids],
            ⟨[stateKey s1], ?_, ?_, ?_, rfl⟩, hv1, hdc1, hw1, hrest⟩
          · simp only [List.map_cons, List.map_nil, List.cons.injEq, and_true]
            rw [hid1, hdc1, hw1]
            rfl
          · intro k hk
            simp only [List.mem_singleton] at hk
            exact hk ▸ hkey1
          · rw [List.chain'_cons]
            exact ⟨hlex1, List.chain'_singleton _⟩
      · rcases hb : nextBatchNum clock fuel count s tick with ⟨o, os, ot⟩ | _ | ⟨ids1, s1, t1⟩
        · simp only [runOps, hb] at h
          exact Option.noConfusion h
        · simp only [runOps, hb] at h
          exact Option.noConfusion h
        · simp only [runOps, hb] at h
          rcases hrest : runOps clock fuel ops s1 t1 with _ | ⟨⟨ids2, s2, t2⟩⟩
          · simp only [hrest] at h
            exact Option.noConfusion h
          simp only [hrest, Option.some.injEq, Prod.mk.injEq] at h
          obtain ⟨hids, hs', htk2⟩ := h
          subst hs' htk2
          unfold nextBatchNum at hb
          by_cases hcount : count ≤ 0
          · rw [if_pos hcount] at hb
            simp only [BatchResult.ok.injEq] at hb
            obtain ⟨hids1, hs1, _⟩ := hb
            subst hs1
            refine ⟨ids1, ids2, s, t1, by rw [← hids], ⟨[], by simp [← hids1], by simp,
              List.chain'_singleton _, rfl⟩, hv, rfl, rfl, hrest⟩
          · rw [if_neg hcount] at hb
            obtain ⟨hv1, hdc1, hw1, hlen1, keys1, hmap, hkeys, hchain, hlast⟩ :=
              generateN_spec hc hv hb
            exact ⟨ids1, ids2, s1, t1, by rw [← hids],
              ⟨keys1, hmap, hkeys, hchain, hlast⟩, hv1, hdc1, hw1, hrest⟩
    obtain ⟨ids1, ids2, s1, t1, hids, ⟨keys1, hmap1, hkeys1, hchain1, hlast1⟩,
      hv1, hdc1, hw1, hrest⟩ := hstep
    obtain ⟨hv2, hdc2, hw2, keys2, hmap2, hkeys2, hchain2, hlast2⟩ := ih hv1 hrest
    refine ⟨hv2, hdc2.trans hdc1, hw2.trans hw1, keys1 ++ keys2, ?_, ?_, ?_, ?_⟩
    · rw [hids, List.map_append, ← hmap1, hmap2, hdc1, hw1]
    · intro k hk
      rcases List.mem_append.mp hk with hk | hk
      · exact hkeys1 k hk
      · exact hkeys2 k hk
    · exact chain_glue hchain1 (hlast1 ▸ hchain2)
    · rw [getLastD_append, ← hlast1]
      exact hlast2

end Snowflake

namespace Snowflake

/-- From a strictly rising key chain, the composed ids are pairwise
distinct (indeed strictly increasing) and their timestamp fields are
non-decreasing. -/
theorem keys_to_ids_props {dc w : Int}
    (hdc0 : 0 ≤ dc) (hdc1 : dc ≤ 31) (hw0 : 0 ≤ w) (hw1 : w ≤ 31)
    {k0 : Int × Int} {keys : List (Int × Int)} {ids : List Int}
    (hmap : ids = keys.map (fun k => composeId k.1 dc w k.2))
    (hkeys : ∀ k ∈ keys, KeyOk k)
    (hchain : List.Chain' lexLt (k0 :: keys)) :
    List.Pairwise (fun a b => a ≠ b) ids ∧
      List.Chain' (fun a b => a ≤ b) (ids.map timestampField) := by
  have hpw : List.Pairwise lexLt keys :=
    (List.chain'_iff_pairwise.mp hchain).of_cons
  have hlt : List.Pairwise (fun a b => a < b) ids := by
    rw [hmap, List.pairwise_map]
    refine hpw.imp_of_mem ?_
    intro a b ha hb hab
    exact composeId_lt_composeId hdc0 hdc1 hw0 hw1 (hkeys a ha) (hkeys b hb) hab
  refine ⟨hlt.imp (fun hab => ne_of_lt hab), ?_⟩
  have hts : List.Pairwise (fun a b => timestampField a ≤ timestampField b) ids := by
    rw [hmap, List.pairwise_map]
    refine hpw.imp_of_mem ?_
    intro a b ha hb hab
    rw [timestampField_composeId hdc0 hdc1 hw0 hw1 (hkeys a ha),
      timestampField_composeId hdc0 hdc1 hw0 hw1 (hkeys b hb)]
    unfold lexLt at hab
    omega
  exact (List.pairwise_map.mpr hts).chain'

end Snowflake

/-- C1.  Over every successful serialized run of `next()` / `nextBatch()`
calls on one generator state (any interleaving is serialized by the promise
chain), the emitted ids are pairwise distinct and the timestamp fields
embedded in them are non-decreasing in generation order. -/
theorem Snowflake.ids_unique_and_timestamps_monotone
    {clock : Nat → Int} {fuel : Nat} {ops : List Snowflake.Op}
    {s : Snowflake.GenState} {tick : Nat} {ids : List Int}
    {s' : Snowflake.GenState} {tick' : Nat}
    (hc : ∀ i, Snowflake.epoch ≤ clock i) (hv : Snowflake.ValidState s)
    (h : Snowflake.runOps clock fuel ops s tick = some (ids, s', tick')) :
    List.Pairwise (fun a b => a ≠ b) ids ∧
      List.Chain' (fun a b => a ≤ b) (ids.map Snowflake.timestampField) := by
  obtain ⟨hdc0, hdc1, hw0, hw1, _, _⟩ := And.intro hv hv |>.1
  rw [Snowflake.maxDatacenterId_eq] at hdc1
  rw [Snowflake.maxWorkerId_eq] at hw1
  obtain ⟨_, _, _, keys, hmap, hkeys, hchain, _⟩ :=
    Snowflake.runOps_spec hc hv h
  exact Snowflake.keys_to_ids_props hdc0 hdc1 hw0 hw1 hmap hkeys hchain

/-- Witness for C1: a concrete serialized run (a `next()`, a `nextBatch(3)`,
then a `next()`, all within one millisecond at the epoch) emits the ids
0, 1, 2, 3, 4 — pairwise distinct, with non-decreasing timestamp fields. -/
theorem Snowflake.ids_unique_and_timestamps_monotone_witness :
    List.Pairwise (fun a b => a ≠ b) ([0, 1, 2, 3, 4] : List Int) ∧
      List.Chain' (fun a b => a ≤ b)
        (([0, 1, 2, 3, 4] : List Int).map Snowflake.timestampField) :=
  @Snowflake.ids_unique_and_timestamps_monotone
    (fun _ => Snowflake.epoch) 0 [.next, .batch 3, .next]
    { datacenterId := 0, workerId := 0, lastTimestamp := -1, sequence := 0 } 0
    [0, 1, 2, 3, 4]
    { datacenterId := 0, workerId := 0, lastTimestamp := Snowflake.epoch,
      sequence := 4 } 5
    (fun _ => le_refl _) (by decide) (by decide)

/-- C3.  When the clock reads strictly below `lastTimestamp`, the call
throws the clock-regression error carrying the regression magnitude
`lastTimestamp - now`: no id is emitted, the state (`lastTimestamp`,
`sequence`) is returned untouched, and exactly one clock reading is
consumed — no waiting, no timestamp reuse.  The same holds through
`next()`. -/
theorem Snowflake.clock_regression_rejected
    {clock : Nat → Int} {fuel : Nat} {s : Snowflake.GenState} {tick : Nat}
    (h : clock tick < s.lastTimestamp) :
    Snowflake.generateIdUnsafe clock fuel s tick =
      .regress (s.lastTimestamp - clock tick) s (tick + 1) ∧
    Snowflake.next clock fuel s tick =
      .regress (s.lastTimestamp - clock tick) s (tick + 1) := by
  refine ⟨Snowflake.generateIdUnsafe_regress h, ?_⟩
  unfold Snowflake.next
  rw [Snowflake.generateIdUnsafe_regress h]

/-- Witness for C3: a generator that last emitted at `epoch + 5` and now
reads `epoch` fails with offset 5 and unchanged state. -/
theorem Snowflake.clock_regression_rejected_witness :
    Snowflake.generateIdUnsafe (fun _ => Snowflake.epoch) 0
      { datacenterId := 0, workerId := 0,
        lastTimestamp := Snowflake.epoch + 5, sequence := 7 } 0 =
      .regress ((Snowflake.epoch + 5) - Snowflake.epoch)
        { datacenterId := 0, workerId := 0,
          lastTimestamp := Snowflake.epoch + 5, sequence := 7 } 1 ∧
    Snowflake.next (fun _ => Snowflake.epoch) 0
      { datacenterId := 0, workerId := 0,
        lastTimestamp := Snowflake.epoch + 5, sequence := 7 } 0 =
      .regress ((Snowflake.epoch + 5) - Snowflake.epoch)
        { datacenterId := 0, workerId := 0,
          lastTimestamp := Snowflake.epoch + 5, sequence := 7 } 1 :=
  Snowflake.clock_regression_rejected (by decide)

/-- C6.  Every id emitted by `next()` is the decimal string of the value
composed per the canonical layout `((now - epoch) << 22) |
(datacenterId << 17) | (workerId << 12) | sequence`; with the fields in
range the composition is the positional sum of the four fields, it is
non-negative, and as long as the timestamp fits its 41 bits the value stays
below `2^63`, leaving the sign bit unused. -/
theorem Snowflake.next_id_layout
    {clock : Nat → Int} {fuel : Nat} {s : Snowflake.GenState} {tick : Nat}
    {idStr : String} {s' : Snowflake.GenState} {tick' : Nat}
    (hc : ∀ i, Snowflake.epoch ≤ clock i) (hv : Snowflake.ValidState s)
    (h : Snowflake.next clock fuel s tick = .ok idStr s' tick') :
    idStr = toString (Snowflake.composeId s'.lastTimestamp s'.datacenterId
        s'.workerId s'.sequence) ∧
    s'.datacenterId = s.datacenterId ∧ s'.workerId = s.workerId ∧
    Snowflake.composeId s'.lastTimestamp s'.datacenterId s'.workerId s'.sequence =
      (s'.lastTimestamp - Snowflake.epoch) * 2 ^ 22 + s'.datacenterId * 2 ^ 17 +
        s'.workerId * 2 ^ 12 + s'.sequence ∧
    0 ≤ Snowflake.composeId s'.lastTimestamp s'.datacenterId s'.workerId
        s'.sequence ∧
    (s'.lastTimestamp - Snowflake.epoch < 2 ^ 41 →
      Snowflake.composeId s'.lastTimestamp s'.datacenterId s'.workerId
          s'.sequence < 2 ^ 63) := by
  unfold Snowflake.next at h
  rcases hg : Snowflake.generateIdUnsafe clock fuel s tick with ⟨o, os, ot⟩ | _ | ⟨id, s1, t1⟩
  · simp only [hg] at h
    exact Snowflake.NextResult.noConfusion h
  · simp only [hg] at h
    exact Snowflake.NextResult.noConfusion h
  simp only [hg, Snowflake.NextResult.ok.injEq] at h
  obtain ⟨hstr, hs', htk⟩ := h
  subst hs' htk
  obtain ⟨hv1, hdc1, hw1, hkey1, _, hid1, _⟩ :=
    Snowflake.generateIdUnsafe_ok_spec hc hv hg
  simp only [Snowflake.stateKey] at hkey1
  obtain ⟨hts, hq0, hq1⟩ := hkey1
  obtain ⟨hdc0, hdcM, hw0, hwM, _, _⟩ := hv1
  rw [Snowflake.maxDatacenterId_eq] at hdcM
  rw [Snowflake.maxWorkerId_eq] at hwM
  have hsum := Snowflake.composeId_eq_sum hts hdc0 hdcM hw0 hwM hq0 hq1
  refine ⟨by rw [← hstr, hid1], hdc1, hw1, hsum, ?_, ?_⟩
  · rw [hsum]
    have e22 : (2 : ℤ) ^ 22 = 4194304 := by norm_num
    have e17 : (2 : ℤ) ^ 17 = 131072 := by norm_num
    have e12 : (2 : ℤ) ^ 12 = 4096 := by norm_num
    rw [e22, e17, e12]
    omega
  · intro hfit
    rw [hsum]
    have e22 : (2 : ℤ) ^ 22 = 4194304 := by norm_num
    have e17 : (2 : ℤ) ^ 17 = 131072 := by norm_num
    have e12 : (2 : ℤ) ^ 12 = 4096 := by norm_num
    have e41 : (2 : ℤ) ^ 41 = 2199023255552 := by norm_num
    have e63 : (2 : ℤ) ^ 63 = 9223372036854775808 := by norm_num
    rw [e22, e17, e12, e63]
    rw [e41] at hfit
    omega

/-- Witness for C6: one `next()` call one millisecond after the epoch
returns the decimal string of `1 << 22`. -/
theorem Snowflake.next_id_layout_witness :
    ("4194304" : String) = toString (Snowflake.composeId (Snowflake.epoch + 1) 0 0 0) ∧
    (0 : Int) = 0 ∧ (0 : Int) = 0 ∧
    Snowflake.composeId (Snowflake.epoch + 1) 0 0 0 =
      ((Snowflake.epoch + 1) - Snowflake.epoch) * 2 ^ 22 + 0 * 2 ^ 17 +
        0 * 2 ^ 12 + 0 ∧
    0 ≤ Snowflake.composeId (Snowflake.epoch + 1) 0 0 0 ∧
    ((Snowflake.epoch + 1) - Snowflake.epoch < 2 ^ 41 →
      Snowflake.composeId (Snowflake.epoch + 1) 0 0 0 < 2 ^ 63) :=
  @Snowflake.next_id_layout
    (fun _ => Snowflake.epoch + 1) 0
    { datacenterId := 0, workerId := 0, lastTimestamp := -1, sequence := 0 } 0
    "4194304"
    { datacenterId := 0, workerId := 0, lastTimestamp := Snowflake.epoch + 1,
      sequence := 0 } 1
    (fun i => by show Snowflake.epoch ≤ Snowflake.epoch + 1; decide)
    (by decide) (by decide)

/-- C7.  Within the same millisecond the sequence advances as
`(sequence + 1) & maxSequence`, i.e. increment mod 4096; while it does not
wrap the id is emitted with the same millisecond and the incremented
sequence; when it wraps to 0 (4096 slots consumed, so this is the 4097th id
of that millisecond) the call busy-waits, re-reading the clock, and emits
with the advanced millisecond and sequence 0 — an ordinary `ok` result,
never an error. -/
theorem Snowflake.sequence_rollover
    {clock : Nat → Int} {fuel : Nat} {s : Snowflake.GenState} {tick : Nat}
    (hv : Snowflake.ValidState s) (hsame : clock tick = s.lastTimestamp) :
    Int.land (s.sequence + 1) Snowflake.maxSequence = (s.sequence + 1) % 4096 ∧
    (s.sequence < 4095 →
      Snowflake.generateIdUnsafe clock fuel s tick =
        .ok (Snowflake.composeId s.lastTimestamp s.datacenterId s.workerId
              (s.sequence + 1))
          { s with sequence := s.sequence + 1, lastTimestamp := s.lastTimestamp }
          (tick + 1)) ∧
    (s.sequence = 4095 → s.lastTimestamp < clock (tick + 1) →
      Snowflake.generateIdUnsafe clock (fuel + 1) s tick =
        .ok (Snowflake.composeId (clock (tick + 1)) s.datacenterId s.workerId 0)
          { s with sequence := 0, lastTimestamp := clock (tick + 1) }
          (tick + 2)) := by
  obtain ⟨_, _, _, _, hs0, hs1⟩ := hv
  rw [Snowflake.maxSequence_eq] at hs1
  have hmask : Int.land (s.sequence + 1) Snowflake.maxSequence =
      (s.sequence + 1) % 4096 :=
    Snowflake.land_maxSequence _ (by omega)
  refine ⟨hmask, ?_, ?_⟩
  · intro hlt
    have hval : Int.land (s.sequence + 1) Snowflake.maxSequence = s.sequence + 1 := by
      rw [hmask]; omega
    rw [Snowflake.generateIdUnsafe_same hsame (by rw [hval]; omega), hval]
  · intro h4095 hadv
    have hval : Int.land (s.sequence + 1) Snowflake.maxSequence = 0 := by
      rw [hmask, h4095]
      decide
    rw [Snowflake.generateIdUnsafe_wrap hsame hval]
    unfold Snowflake.waitNextMillis
    rw [if_neg (by omega)]

/-- Witness for C7: a generator sitting at sequence 4095 of the epoch
millisecond, with the clock advancing on its next reading, emits the next
id with the advanced millisecond and sequence 0 instead of failing. -/
theorem Snowflake.sequence_rollover_witness :
    Snowflake.generateIdUnsafe
      (fun i => if i = 0 then Snowflake.epoch else Snowflake.epoch + 1) 1
      { datacenterId := 0, workerId := 0, lastTimestamp := Snowflake.epoch,
        sequence := 4095 } 0 =
      .ok (Snowflake.composeId (Snowflake.epoch + 1) 0 0 0)
        { datacenterId := 0, workerId := 0,
          lastTimestamp := Snowflake.epoch + 1, sequence := 0 } 2 :=
  (Snowflake.sequence_rollover (by decide) (by decide)).2.2 (by decide) (by decide)

namespace Snowflake

/-- A run of `n` sequential `next()` calls is exactly the batch loop followed by the
shared decimal formatting. -/
theorem nextCalls_eq_stringify_generateN {clock : Nat → Int} {fuel : Nat} :
    ∀ (n : Nat) (s : GenState) (tick : Nat),
      nextCalls clock fuel n s tick = stringify (generateN clock fuel n s tick) := by
  intro n
  induction n with
  | zero => intro s tick; rfl
  | succ n ih =>
    intro s tick
    rcases hg : generateIdUnsafe clock fuel s tick with ⟨o, os, ot⟩ | _ | ⟨id, s1, t1⟩
    · simp only [nextCalls, next, generateN, hg, stringify]
    · simp only [nextCalls, next, generateN, hg, stringify]
    · simp only [nextCalls, next, generateN, hg, stringify, ih]
      rcases hr : generateN clock fuel n s1 t1 with ⟨o2, os2, ot2⟩ | _ | ⟨ids1, s2, t2⟩ <;>
        simp only [hr, stringify, List.map_cons]

end Snowflake

/-- C8.  For every `count ≥ 0`, `nextBatch(count)` returns exactly the ids
of `count` sequential `next()` calls run back to back from the same state
(one uninterrupted promise-chain entry), and on success the batch holds
exactly `count` pairwise-distinct ids in non-decreasing timestamp order. -/
theorem Snowflake.nextBatch_refines_sequential_next
    {clock : Nat → Int} {fuel : Nat} {count : Int} {s : Snowflake.GenState}
    {tick : Nat} (hcount : 0 ≤ count) (hc : ∀ i, Snowflake.epoch ≤ clock i)
    (hv : Snowflake.ValidState s) :
    Snowflake.nextBatch clock fuel count s tick =
      Snowflake.nextCalls clock fuel count.toNat s tick ∧
    (∀ ids s' tick',
      Snowflake.nextBatchNum clock fuel count s tick = .ok ids s' tick' →
      ids.length = count.toNat ∧ List.Pairwise (fun a b => a ≠ b) ids ∧
        List.Chain' (fun a b => a ≤ b) (ids.map Snowflake.timestampField)) := by
  constructor
  · unfold Snowflake.nextBatch Snowflake.nextBatchNum
    by_cases hle : count ≤ 0
    · rw [if_pos hle]
      have h0 : count.toNat = 0 := by omega
      rw [h0]
      rfl
    · rw [if_neg hle, Snowflake.nextCalls_eq_stringify_generateN]
  · intro ids s' tick' hb
    unfold Snowflake.nextBatchNum at hb
    by_cases hle : count ≤ 0
    · rw [if_pos hle] at hb
      simp only [Snowflake.BatchResult.ok.injEq] at hb
      obtain ⟨hids, _, _⟩ := hb
      have h0 : count.toNat = 0 := by omega
      rw [← hids, h0]
      exact ⟨rfl, List.Pairwise.nil, List.chain'_nil⟩
    · rw [if_neg hle] at hb
      obtain ⟨hdc0, hdc1, hw0, hw1, _, _⟩ := And.intro hv hv |>.1
      rw [Snowflake.maxDatacenterId_eq] at hdc1
      rw [Snowflake.maxWorkerId_eq] at hw1
      obtain ⟨_, _, _, hlen, keys, hmap, hkeys, hchain, _⟩ :=
        Snowflake.generateN_spec hc hv hb
      exact ⟨hlen, Snowflake.keys_to_ids_props hdc0 hdc1 hw0 hw1 hmap hkeys hchain⟩

/-- Witness for C8: `nextBatch(2)` from a fresh generator within the epoch
millisecond equals two sequential `next()` calls and emits the two distinct,
ordered ids 0 and 1. -/
theorem Snowflake.nextBatch_refines_sequential_next_witness :
    Snowflake.nextBatch (fun _ => Snowflake.epoch) 0 2
        { datacenterId := 0, workerId := 0, lastTimestamp := -1, sequence := 0 } 0 =
      Snowflake.nextCalls (fun _ => Snowflake.epoch) 0 (2 : Int).toNat
        { datacenterId := 0, workerId := 0, lastTimestamp := -1, sequence := 0 } 0 ∧
    (([0, 1] : List Int).length = (2 : Int).toNat ∧
      List.Pairwise (fun a b => a ≠ b) ([0, 1] : List Int) ∧
      List.Chain' (fun a b => a ≤ b)
        (([0, 1] : List Int).map Snowflake.timestampField)) :=
  ⟨(@Snowflake.nextBatch_refines_sequential_next
      (fun _ => Snowflake.epoch) 0 2
      { datacenterId := 0, workerId := 0, lastTimestamp := -1, sequence := 0 } 0
      (by decide) (fun _ => le_refl _) (by decide)).1,
   (@Snowflake.nextBatch_refines_sequential_next
      (fun _ => Snowflake.epoch) 0 2
      { datacenterId := 0, workerId := 0, lastTimestamp := -1, sequence := 0 } 0
      (by decide) (fun _ => le_refl _) (by decide)).2 [0, 1]
     { datacenterId := 0, workerId := 0, lastTimestamp := Snowflake.epoch,
       sequence := 1 } 2 (by decide)⟩

/-- C10.  Construction succeeds exactly when both `workerId` and
`datacenterId` lie in `[0, 31]`; outside that range it is rejected with a
configuration error. -/
theorem Snowflake.constructor_range_check (workerIdEnv datacenterIdEnv : Int) :
    ((∃ s, Snowflake.mkGenerator workerIdEnv datacenterIdEnv = .ok s) ↔
      (0 ≤ workerIdEnv ∧ workerIdEnv ≤ 31 ∧
        0 ≤ datacenterIdEnv ∧ datacenterIdEnv ≤ 31)) ∧
    ((∃ e, Snowflake.mkGenerator workerIdEnv datacenterIdEnv = .error e) ↔
      ¬(0 ≤ workerIdEnv ∧ workerIdEnv ≤ 31 ∧
        0 ≤ datacenterIdEnv ∧ datacenterIdEnv ≤ 31)) := by
  unfold Snowflake.mkGenerator
  rw [Snowflake.maxWorkerId_eq, Snowflake.maxDatacenterId_eq]
  by_cases h1 : workerIdEnv > 31 ∨ workerIdEnv < 0
  · rw [if_pos h1]
    refine ⟨⟨fun ⟨s, hs⟩ => absurd hs (by simp), fun hr => absurd hr (by omega)⟩,
      ⟨fun _ => by omega, fun _ => ⟨_, rfl⟩⟩⟩
  · rw [if_neg h1]
    by_cases h2 : datacenterIdEnv > 31 ∨ datacenterIdEnv < 0
    · rw [if_pos h2]
      refine ⟨⟨fun ⟨s, hs⟩ => absurd hs (by simp), fun hr => absurd hr (by omega)⟩,
        ⟨fun _ => by omega, fun _ => ⟨_, rfl⟩⟩⟩
    · rw [if_neg h2]
      refine ⟨⟨fun _ => by omega, fun _ => ⟨_, rfl⟩⟩,
        ⟨fun ⟨e, he⟩ => absurd he (by simp), fun hr => absurd hr (by omega)⟩⟩

/-!
The distributed lock of `with-lock.decorator.ts`.  The coordination store
(Redis) is embedded as a map from keys to `(value, expiresAt)` pairs; a
`SET key value PX ttl NX` and the release Lua script are each a single
atomic step on that map, and `PX` expiry is part of every read: a key whose
`expiresAt` is not in the future is absent.  `Date.now()` readings and the
reachability of the store are explicit streams (`clock`, `avail`), consumed
one entry per round trip in program order.
-/

namespace DistLock

/-- Store contents: each key holds at most one `(value, expiresAt)` pair —
a function type, so "at most one value per key" is structural. -/
def RedisStore : Type := String → Option (String × Int)

/-- The empty store. -/
def emptyStore : RedisStore := fun _ => none

/-- Reading `key` at time `now`: an entry whose expiry has passed is
absent (Redis `PX` semantics). -/
def rGet (st : RedisStore) (now : Int) (key : String) : Option String :=
  match st key with
  | some (v, expiresAt) => if now < expiresAt then some v else none
  | none => none

/-- One atomic `SET key value PX ttl NX` round trip at time `now`: set only
if the key is (now) absent, with expiry `now + ttl`; returns whether the
reply was `"OK"` together with the store afterwards. -/
def setNxPx (st : RedisStore) (now : Int) (key value : String) (ttl : Int) :
    Bool × RedisStore :=
  match rGet st now key with
  | some _ => (false, st)
  | none => (true, fun k' => if k' = key then some (value, now + ttl) else st k')

/-- The release Lua script, one atomic round trip: if the stored value
equals `value`, delete the key and reply 1, else reply 0 and change
nothing. -/
def releaseScript (st : RedisStore) (now : Int) (key value : String) :
    Bool × RedisStore :=
  match rGet st now key with
  | some v' =>
    if v' = value then (true, fun k' => if k' = key then none else st k')
    else (false, st)
  | none => (false, st)

/-- The `redis.eval` call of `releaseLock`: when the store is unreachable
the call throws, modelled as `Except.error`. -/
def evalScript (avail : Bool) (st : RedisStore) (now : Int) (key value : String) :
    Except Unit (Bool × RedisStore) :=
  if avail then .ok (releaseScript st now key value) else .error ()

/-- Function `releaseLock(redis, lockKey, lockValue)`: runs the script and
returns whether the reply was 1; every thrown error is caught, logged and
turned into `false` — the function itself never throws. -/
def releaseLock (avail : Bool) (st : RedisStore) (now : Int) (key value : String) :
    Bool × RedisStore :=
  match evalScript avail st now key value with
  | .ok r => r
  | .error _ => (false, st)

/-- Outcome of `acquireLock`: `acquired` / `timeout` mirror the `true` /
`false` returns (the `WithLock` wrapper throws `LOCK_ACQUIRE_FAILED` on
`false`), `storeError` is the re-thrown `LOCK_ACQUIRE_ERROR` when a `SET`
round trip fails, `diverge` is a loop that did not exit within the fuel.
Each outcome carries the store and the next unconsumed tick. -/
inductive AcquireOutcome where
  | acquired (st : RedisStore) (tick : Nat)
  | timeout (st : RedisStore) (tick : Nat)
  | storeError (st : RedisStore) (tick : Nat)
  | diverge

/-- The `while (true)` loop of `acquireLock`, `startTime` already read.
Each iteration consumes tick `t` for the `SET` round trip (reachability
`avail t`, time `clock t`) and tick `t + 1` for the `Date.now()` of the
elapsed check, then sleeps `retryInterval` and retries from tick `t + 2`. -/
def acquireLoop (clock : Nat → Int) (avail : Nat → Bool) (key value : String)
    (ttl waitTimeout startTime : Int) :
    Nat → RedisStore → Nat → AcquireOutcome
  | 0, _, _ => .diverge
  | fuel + 1, st, tick =>
    if avail tick then
      match setNxPx st (clock tick) key value ttl with
      | (true, st') => .acquired st' (tick + 1)
      | (false, st') =>
        if clock (tick + 1) - startTime ≥ waitTimeout then
          .timeout st' (tick + 2)
        else
          acquireLoop clock avail key value ttl waitTimeout startTime fuel st' (tick + 2)
    else
      .storeError st (tick + 1)

/-- Function `acquireLock(redis, lockKey, lockValue, ttl, waitTimeout,
retryInterval, logger)`: records `startTime = Date.now()` (tick `tick`) and
enters the retry loop at tick `tick + 1`.  `retryInterval` only determines
how long each sleep lasts, i.e. how far the clock advances between
iterations; it does not otherwise enter the control flow. -/
def acquireLock (clock : Nat → Int) (avail : Nat → Bool) (key value : String)
    (ttl waitTimeout : Int) (fuel : Nat) (st : RedisStore) (tick : Nat) :
    AcquireOutcome :=
  acquireLoop clock avail key value ttl waitTimeout (clock tick) fuel st (tick + 1)

/-- The two atomic operations any client can issue against a lock key. -/
inductive StoreOp where
  | acquireAttempt (key value : String) (ttl : Int)
  | release (key value : String)

/-- One atomic step of the coordination store at time `now`. -/
def applyOp (op : StoreOp) (now : Int) (st : RedisStore) : Bool × RedisStore :=
  match op with
  | .acquireAttempt key value ttl => setNxPx st now key value ttl
  | .release key value => releaseScript st now key value

end DistLock

/-- C4.  Release is one atomic compare-and-delete: with the store
reachable, `releaseLock` replies `true` and deletes the key exactly when
the live stored value equals the token; on any mismatch (absent, expired,
or held under another token) it replies `false` — not an error — and the
store is left exactly as it was, so the key remains with its current
owner. -/
theorem DistLock.release_compare_and_delete
    (st : DistLock.RedisStore) (now : Int) (key token : String) :
    ((DistLock.releaseLock true st now key token).1 = true ↔
      DistLock.rGet st now key = some token) ∧
    (DistLock.rGet st now key = some token →
      DistLock.releaseLock true st now key token =
        (true, fun k' => if k' = key then none else st k')) ∧
    (DistLock.rGet st now key ≠ some token →
      DistLock.releaseLock true st now key token = (false, st)) := by
  unfold DistLock.releaseLock DistLock.evalScript DistLock.releaseScript
  rcases hg : DistLock.rGet st now key with _ | v
  · simp [hg]
  · by_cases hv : v = token
    · subst hv
      simp [hg]
    · simp only [if_pos rfl, if_neg hv]
      refine ⟨by simp [hv], fun hsome => ?_, fun _ => rfl⟩
      exact absurd (Option.some.inj hsome) hv

/-- Witness for C4: on a store holding `k ↦ ("T1", expiry 100)` at time 50,
a release with the wrong token `"T2"` returns `false` and leaves the store
unchanged. -/
theorem DistLock.release_compare_and_delete_witness :
    DistLock.rGet (fun k => if k = "k" then some ("T1", 100) else none) 50 "k" ≠
      some "T2" ∧
    DistLock.releaseLock true (fun k => if k = "k" then some ("T1", 100) else none)
        50 "k" "T2" =
      (false, fun k => if k = "k" then some ("T1", 100) else none) :=
  ⟨by decide,
   (DistLock.release_compare_and_delete
      (fun k => if k = "k" then some ("T1", 100) else none) 50 "k" "T2").2.2
     (by decide)⟩

namespace DistLock

/-- Reading a live held key returns its token. -/
theorem rGet_eq_some {st : RedisStore} {key token : String} {expiresAt now : Int}
    (hheld : st key = some (token, expiresAt)) (hlive : now < expiresAt) :
    rGet st now key = some token := by
  unfold rGet
  rw [hheld]
  show (if now < expiresAt then some token else none) = some token
  rw [if_pos hlive]

/-- A point update at a different key does not change what a read returns. -/
theorem rGet_update_ne {st : RedisStore} {u key : String}
    (f : Option (String × Int)) (hne : ¬key = u) (now : Int) :
    rGet (fun x => if x = u then f else st x) now key = rGet st now key := by
  unfold rGet
  have h : (fun x => if x = u then f else st x) key = st key := by
    show (if key = u then f else st key) = st key
    rw [if_neg hne]
  rw [h]

end DistLock

/-- C2.  The store holds at most one value per lock key at any instant
(structurally, plus: a read returns at most one token); while a key is held
and unexpired, every other acquire attempt on it fails atomically and
changes nothing; and a key held under `token` stops reading as
`Locked(token)` only through a release carrying the matching token or
through TTL expiry. -/
theorem DistLock.lock_mutual_exclusion
    (st : DistLock.RedisStore) (op : DistLock.StoreOp) (now now' : Int)
    (key token : String) (expiresAt : Int)
    (hheld : st key = some (token, expiresAt)) (hlive : now < expiresAt) :
    (∀ v v', DistLock.rGet st now key = some v →
      DistLock.rGet st now key = some v' → v = v') ∧
    (∀ value ttl, now' < expiresAt →
      DistLock.applyOp (.acquireAttempt key value ttl) now' st = (false, st)) ∧
    (DistLock.rGet (DistLock.applyOp op now' st).2 now' key ≠ some token →
      op = .release key token ∨ expiresAt ≤ now') := by
  refine ⟨?_, ?_, ?_⟩
  · intro v v' h1 h2
    rw [h1] at h2
    exact Option.some.inj h2
  · intro value ttl hlive'
    have hget : DistLock.rGet st now' key = some token :=
      DistLock.rGet_eq_some hheld hlive'
    simp only [DistLock.applyOp, DistLock.setNxPx, hget]
  · intro hlost
    by_cases hexp : expiresAt ≤ now'
    · exact Or.inr hexp
    · have hget : DistLock.rGet st now' key = some token :=
        DistLock.rGet_eq_some hheld (by omega)
      rcases op with ⟨k', v', ttl'⟩ | ⟨k', v'⟩
      · exfalso
        simp only [DistLock.applyOp, DistLock.setNxPx] at hlost
        rcases hg : DistLock.rGet st now' k' with _ | w
        · simp only [hg] at hlost
          by_cases hk : k' = key
          · subst hk
            rw [hg] at hget
            exact Option.noConfusion hget
          · rw [DistLock.rGet_update_ne _ (fun h => hk h.symm) now'] at hlost
            exact hlost hget
        · simp only [hg] at hlost
          exact hlost hget
      · simp only [DistLock.applyOp, DistLock.releaseScript] at hlost
        by_cases hk : k' = key
        · subst hk
          simp only [hget] at hlost
          by_cases hv : token = v'
          · subst hv
            exact Or.inl rfl
          · rw [if_neg hv] at hlost
            exact absurd hget hlost
        · exfalso
          rcases hg : DistLock.rGet st now' k' with _ | w
          · simp only [hg] at hlost
            exact hlost hget
          · simp only [hg] at hlost
            by_cases hv : w = v'
            · rw [if_pos hv] at hlost
              rw [DistLock.rGet_update_ne _ (fun h => hk h.symm) now'] at hlost
              exact hlost hget
            · rw [if_neg hv] at hlost
              exact hlost hget

/-- Witness for C2: with `k` held as `("T1", expiry 100)` at time 50, a
competing acquire attempt at time 60 fails and leaves the store unchanged,
and losing the key at time 60 can only mean a matching release or expiry —
here instantiated with a matching release. -/
theorem DistLock.lock_mutual_exclusion_witness :
    (∀ v v', DistLock.rGet (fun k => if k = "k" then some ("T1", 100) else none)
        50 "k" = some v →
      DistLock.rGet (fun k => if k = "k" then some ("T1", 100) else none)
        50 "k" = some v' → v = v') ∧
    (∀ value ttl, (60 : Int) < 100 →
      DistLock.applyOp (.acquireAttempt "k" value ttl) 60
          (fun k => if k = "k" then some ("T1", 100) else none) =
        (false, fun k => if k = "k" then some ("T1", 100) else none)) ∧
    (DistLock.rGet
        (DistLock.applyOp (.release "k" "T1") 60
          (fun k => if k = "k" then some ("T1", 100) else none)).2 60 "k" ≠
        some "T1" →
      DistLock.StoreOp.release "k" "T1" = .release "k" "T1" ∨ (100 : Int) ≤ 60) :=
  DistLock.lock_mutual_exclusion
    (fun k => if k = "k" then some ("T1", 100) else none)
    (.release "k" "T1") 50 60 "k" "T1" 100 (by decide) (by decide)

/-- C5.  One pass of the acquire loop on a held key: (a) while the elapsed
wait is still within `waitTimeout`, the failed conditional set is followed
by a sleep of `retryInterval` and a retry of the same atomic set; (b) once
the elapsed wait reaches `waitTimeout`, the call fails (returns `false`,
which the wrapper turns into the lock-acquire-failed error) immediately
after the failed attempt; (c) with `waitTimeout = 0` and a monotone clock,
`acquireLock` on a held key fails after exactly one attempt — the same
result for every fuel, so no retry loop is ever entered. -/
theorem DistLock.acquire_retry_timeout_failfast
    (clock : Nat → Int) (avail : Nat → Bool) (key value : String)
    (ttl waitTimeout startTime : Int) (fuel : Nat) (st : DistLock.RedisStore)
    (tick : Nat) :
    (avail tick = true → DistLock.rGet st (clock tick) key ≠ none →
      clock (tick + 1) - startTime < waitTimeout →
      DistLock.acquireLoop clock avail key value ttl waitTimeout startTime
          (fuel + 1) st tick =
        DistLock.acquireLoop clock avail key value ttl waitTimeout startTime
          fuel st (tick + 2)) ∧
    (avail tick = true → DistLock.rGet st (clock tick) key ≠ none →
      waitTimeout ≤ clock (tick + 1) - startTime →
      DistLock.acquireLoop clock avail key value ttl waitTimeout startTime
          (fuel + 1) st tick = .timeout st (tick + 2)) ∧
    (waitTimeout = 0 → clock tick ≤ clock (tick + 2) →
      avail (tick + 1) = true →
      DistLock.rGet st (clock (tick + 1)) key ≠ none →
      DistLock.acquireLock clock avail key value ttl waitTimeout (fuel + 1)
          st tick = .timeout st (tick + 3)) := by
  have hfail : ∀ t (st' : DistLock.RedisStore),
      DistLock.rGet st' (clock t) key ≠ none →
      DistLock.setNxPx st' (clock t) key value ttl = (false, st') := by
    intro t st' hheld
    unfold DistLock.setNxPx
    rcases hg : DistLock.rGet st' (clock t) key with _ | w
    · exact absurd hg hheld
    · rfl
  have hstep : ∀ t (st' : DistLock.RedisStore) (b : Int),
      DistLock.rGet st' (clock t) key ≠ none →
      DistLock.acquireLoop clock avail key value ttl waitTimeout b
          (fuel + 1) st' t =
        if avail t then
          (if clock (t + 1) - b ≥ waitTimeout then
            DistLock.AcquireOutcome.timeout st' (t + 2)
          else
            DistLock.acquireLoop clock avail key value ttl waitTimeout b
              fuel st' (t + 2))
        else DistLock.AcquireOutcome.storeError st' (t + 1) := by
    intro t st' b hheld
    by_cases hav : avail t
    · rw [if_pos hav]
      show (if avail t then
          match DistLock.setNxPx st' (clock t) key value ttl with
          | (true, st2) => DistLock.AcquireOutcome.acquired st2 (t + 1)
          | (false, st2) =>
            if clock (t + 1) - b ≥ waitTimeout then
              DistLock.AcquireOutcome.timeout st2 (t + 2)
            else
              DistLock.acquireLoop clock avail key value ttl waitTimeout
                b fuel st2 (t + 2)
        else DistLock.AcquireOutcome.storeError st' (t + 1)) = _
      rw [if_pos hav, hfail t st' hheld]
    · rw [if_neg hav]
      show (if avail t then
          match DistLock.setNxPx st' (clock t) key value ttl with
          | (true, st2) => DistLock.AcquireOutcome.acquired st2 (t + 1)
          | (false, st2) =>
            if clock (t + 1) - b ≥ waitTimeout then
              DistLock.AcquireOutcome.timeout st2 (t + 2)
            else
              DistLock.acquireLoop clock avail key value ttl waitTimeout
                b fuel st2 (t + 2)
        else DistLock.AcquireOutcome.storeError st' (t + 1)) = _
      rw [if_neg hav]
  refine ⟨?_, ?_, ?_⟩
  · intro hav hheld hwin
    rw [hstep tick st startTime hheld, if_pos hav, if_neg (by omega)]
  · intro hav hheld hout
    rw [hstep tick st startTime hheld, if_pos hav, if_pos (by omega)]
  · intro h0 hmono hav hheld
    unfold DistLock.acquireLock
    rw [hstep (tick + 1) st (clock tick) hheld, if_pos hav,
      if_pos (by have e : tick + 1 + 1 = tick + 2 := rfl; rw [e]; omega)]

/-- Witness for C5: with `k` held past any expiry, a reachable store and
`waitTimeout = 0`, `acquireLock` returns `timeout` right after its single
attempt, identically for fuel 1 (the fuel-independence is what rules out a
retry).  Clock: constantly 50. -/
theorem DistLock.acquire_retry_timeout_failfast_witness :
    DistLock.acquireLock (fun _ => 50) (fun _ => true) "k" "T2" 1000 0 1
        (fun k => if k = "k" then some ("T1", 100) else none) 0 =
      .timeout (fun k => if k = "k" then some ("T1", 100) else none) 3 :=
  (DistLock.acquire_retry_timeout_failfast (fun _ => 50) (fun _ => true)
      "k" "T2" 1000 0 50 0 (fun k => if k = "k" then some ("T1", 100) else none)
      0).2.2 rfl (by decide) rfl (by decide)

/-- C9 counterexample (claim as stated is false for `release`): with the
store unreachable, the `redis.eval` round trip of `releaseLock` throws —
yet `releaseLock` catches it and returns the plain value `false` with the
store untouched, surfacing no error to its caller. -/
theorem DistLock.release_store_error_swallowed :
    DistLock.evalScript false
        (fun k => if k = "k" then some ("T1", 100) else none) 50 "k" "T1" =
      .error () ∧
    DistLock.releaseLock false
        (fun k => if k = "k" then some ("T1", 100) else none) 50 "k" "T1" =
      (false, fun k => if k = "k" then some ("T1", 100) else none) :=
  ⟨rfl, rfl⟩

/-- C9 (amended).  When the store is unreachable during an acquire attempt,
`acquireLock` surfaces the error (`storeError`, re-thrown by the wrapper as
the lock-acquire-error); when it is unreachable during release, the error
is caught and `releaseLock` returns `false` with the store unchanged — it
never reports the release as successful, but it surfaces no error. -/
theorem DistLock.store_unreachable_fails_loudly_on_acquire_only
    (clock : Nat → Int) (avail : Nat → Bool) (key value : String)
    (ttl waitTimeout startTime : Int) (fuel : Nat) (st : DistLock.RedisStore)
    (tick : Nat) (hun : avail tick = false) :
    DistLock.acquireLoop clock avail key value ttl waitTimeout startTime
        (fuel + 1) st tick = .storeError st (tick + 1) ∧
    (∀ (st' : DistLock.RedisStore) (now : Int) (k v : String),
      DistLock.releaseLock false st' now k v = (false, st')) := by
  constructor
  · unfold DistLock.acquireLoop
    rw [if_neg (by rw [hun]; exact Bool.false_ne_true)]
  · intro st' now k v
    rfl

/-- Witness for C9 (amended): an unreachable store at the first attempt
makes `acquireLock`'s loop surface the store error, while the same
condition makes `releaseLock` return `false`. -/
theorem DistLock.store_unreachable_fails_loudly_on_acquire_only_witness :
    DistLock.acquireLoop (fun _ => 50) (fun _ => false) "k" "T2" 1000 5000 50 1
        DistLock.emptyStore 0 = .storeError DistLock.emptyStore 1 ∧
    (∀ (st' : DistLock.RedisStore) (now : Int) (k v : String),
      DistLock.releaseLock false st' now k v = (false, st')) :=
  DistLock.store_unreachable_fails_loudly_on_acquire_only
    (fun _ => 50) (fun _ => false) "k" "T2" 1000 5000 50 0
    DistLock.emptyStore 0 rfl
